import Mathlib

/-!
Verification of the capacity-test engine of CapacityTester
(`src/volumetester.cpp`, class `VolumeTester`).

Shallow embedding conventions:
* Byte counts and offsets (`qint64` in the source) are modelled as `Nat`;
  the source asserts non-negativity (`assert(pos >= 0)`) and uses 64-bit
  arithmetic precisely so that no overflow occurs for realistic volumes.
  The plan-time available-bytes value, which the source compares `<= 0`,
  is modelled as `Int` where that comparison matters.
* Bytes are `Nat` (values 0..255); byte arrays (`QByteArray`) are `List Nat`.
* The filesystem root is an association list from file name to content.
* Fallible I/O (seek/write return values) is driven by explicit oracles;
  the asynchronous cancellation flag is a Boolean trace indexed by the
  number of completed per-block checkpoints.
-/

namespace VolumeTester
/-- `MB` constant of the source (sizes are whole-megabyte multiples). -/
def MB : Nat := 1024 * 1024

/-- `file_prefix` member: fixed name prefix of all test files. -/
def filePrefix : String := "CAPACITYTESTER"

/-- `QString::startsWith`: the first characters of `s` equal `p`. -/
def strStartsWith (s p : String) : Bool :=
  s.data.take p.data.length == p.data

/-- Bytes of the decimal representation of `n`
(`QString::number(n).toUtf8()`). -/
def decBytes (n : Nat) : List Nat := (Nat.repr n).data.map Char.toNat

/-- File id bytes: decimal file index followed by the marker byte `'\1'`. -/
def fileId (i : Nat) : List Nat := decBytes i ++ [1]

/-- Block id bytes: `"i:j"` (`':'` = 58) followed by the marker byte `'\1'`. -/
def blockId (i j : Nat) : List Nat := decBytes i ++ [58] ++ decBytes j ++ [1]

/-- `BlockInfo` of the source: one planned block within a file. -/
structure BlockInfo where
  rel_offset : Nat
  abs_offset : Nat
  size : Nat
  abs_end : Nat
  id : List Nat
deriving Repr, DecidableEq

/-- `FileInfo` of the source: one planned test file. -/
structure FileInfo where
  path : String
  offset : Nat
  size : Nat
  fend : Nat
  id : List Nat
  blocks : List BlockInfo
deriving Repr, DecidableEq

/-- Block partition of one file, from `VolumeTester::start`
(lines 448–479): `block_count = size / block_size_max`, plus one shorter
block when `size % block_size_max` is non-zero; block `j` sits at
relative offset `j * block_size_max`. -/
def planBlocksOf (block_size_max file_offset : Nat) (i : Nat) (size : Nat) :
    List BlockInfo :=
  let last_block_size := size % block_size_max
  let block_count :=
    if last_block_size ≠ 0 then size / block_size_max + 1
    else size / block_size_max
  (List.range block_count).map (fun j =>
    let block_size :=
      if j = block_count - 1 ∧ last_block_size ≠ 0 then last_block_size
      else block_size_max
    let pos := j * block_size_max
    { rel_offset := pos
      abs_offset := file_offset + pos
      size := block_size
      abs_end := file_offset + (pos + block_size)
      id := blockId i j })

/-- File partition of the available space, from `VolumeTester::start`
(lines 411–485): `file_count = bytes_total / file_size_max`, plus one
shorter file when `bytes_total % file_size_max` is non-zero; file `i`
sits at offset `i * file_size_max` ("NOT times current size"). -/
def planFiles (file_size_max block_size_max bytes_total : Nat)
    (mount : String) : List FileInfo :=
  let last_file_size := bytes_total % file_size_max
  let file_count :=
    if last_file_size ≠ 0 then bytes_total / file_size_max + 1
    else bytes_total / file_size_max
  (List.range file_count).map (fun i =>
    let size :=
      if i = file_count - 1 ∧ last_file_size ≠ 0 then last_file_size
      else file_size_max
    let pos := i * file_size_max
    { path := mount ++ "/" ++ filePrefix ++ Nat.repr i
      offset := pos
      size := size
      fend := pos + size
      id := fileId i
      blocks := planBlocksOf block_size_max pos i size })

/-! ### Generic chunk-partition arithmetic -/

/-- Number of chunks when a total is split into chunks of size `max`,
the last one possibly shorter. -/
def chunkCount (total max : Nat) : Nat :=
  if total % max ≠ 0 then total / max + 1 else total / max

/-- Size of chunk `i` in that split. -/
def chunkSize (total max : Nat) (i : Nat) : Nat :=
  if i = chunkCount total max - 1 ∧ total % max ≠ 0 then total % max else max

/-! ### Error classification

Modelled from the spec: the `Error` flag values live in `volumetester.hpp`,
which is not part of the sources at hand; §7 of the design describes the
classification as a combinable set of independent flags
(`Create`, `Permissions`, `Write`, `Resize`, `Verify`, `Full`, `Aborted`,
`Unknown` as the default), so each is one distinct bit and `Unknown` is
the zero/default value. -/

/-- Modelled from the spec: `Error::Unknown`, the default value. -/
def errUnknown : Nat := 0

/-- Modelled from the spec: `Error::Create`. -/
def errCreate : Nat := 1

/-- Modelled from the spec: `Error::Permissions`. -/
def errPermissions : Nat := 2

/-- Modelled from the spec: `Error::Write`. -/
def errWrite : Nat := 4

/-- Modelled from the spec: `Error::Resize`. -/
def errResize : Nat := 8

/-- Modelled from the spec: `Error::Verify`. -/
def errVerify : Nat := 16

/-- Modelled from the spec: `Error::Full`. -/
def errFull : Nat := 32

/-- Modelled from the spec: `Error::Aborted`. -/
def errAborted : Nat := 64

/-! ### Pattern generation -/

/-- `VolumeTester::generateTestPattern` (lines 782–800): a pattern of
exactly `block_size_max` bytes, each `rand() % 254 + 1`; the stream of
`rand()` results is the explicit parameter `rand`. -/
def generateTestPattern (block_size_max : Nat) (rand : Nat → Nat) :
    List Nat :=
  (List.range block_size_max).map (fun i => rand i % 254 + 1)

/-! ### Block data derivation -/

/-- Body of `VolumeTester::blockData` (lines 822–840) once the
`FileInfo`/`BlockInfo` lookups are done: start from the pattern, shrink
to the block size if larger, then overwrite the leading bytes with the
block id when the block is at least as large as the id
(`QByteArray::replace(0, id.size(), id)`). -/
def blockDataCore (pattern : List Nat) (bi : BlockInfo) : List Nat :=
  let block := pattern
  let block := if block.length > bi.size then block.take bi.size else block
  if bi.size ≥ bi.id.length then bi.id ++ block.drop bi.id.length else block

/-- `VolumeTester::blockData` (lines 816–841); the
`file_infos.at(i).blocks.at(j)` accesses throw when out of range, which
is `none` here. -/
def blockData (file_infos : List FileInfo) (pattern : List Nat)
    (file_index block_index : Nat) : Option (List Nat) :=
  match file_infos.get? file_index with
  | none => none
  | some fi =>
    match fi.blocks.get? block_index with
    | none => none
    | some bi => some (blockDataCore pattern bi)

/-- All blocks of a plan in iteration order, paired with their file and
block indices. -/
def allBlocks (fis : List FileInfo) : List (Nat × Nat × BlockInfo) :=
  fis.enum.flatMap (fun p => p.2.blocks.enum.map (fun q => (p.1, q.1, q.2)))

/-! ### Writer (`VolumeTester::writeFull`, lines 664–725)

Each block attempt performs `file->seek(rel_offset)` and `file->write(block)`;
the oracle `io i j` supplies the outcome of that pair: whether the seek
succeeded and the byte count the write reported (`qint64`, `-1` on error,
short on a silently failing device). `canceled t` is the value of the
`_canceled` flag when the writer polls `abortRequested()` after the `t`-th
completed block. -/

/-- Outcome of the seek/write pair for one block attempt. -/
structure WStep where
  seek_ok : Bool
  write_ret : Int
deriving Repr, DecidableEq

/-- How the writer loop ends: all blocks written, a failed block
(reported with its absolute offset and size by `emit writeFailed`),
a cancellation observed at a checkpoint, or an out-of-range plan access. -/
inductive WExit where
  | ok
  | wfail (abs_offset : Nat) (size : Nat)
  | aborted
  | crash
deriving Repr, DecidableEq

/-- Writer progress: completed-block checkpoint counter and the ordered
trace of `(file index, block index, data)` actually written. -/
structure WState where
  t : Nat
  trace : List (Nat × Nat × List Nat)
deriving Repr, DecidableEq

/-- Inner loop of `writeFull` over the blocks of file `i`
(lines 688–721): derive the data, seek + write, on failure set the flag
and report `(abs_offset, size)`, then poll the cancellation flag. -/
def writeBlocksLoop (fis : List FileInfo) (pattern : List Nat)
    (io : Nat → Nat → WStep) (canceled : Nat → Bool) (i : Nat) :
    List (Nat × BlockInfo) → WState → WState × Option WExit
  | [], s => (s, none)
  | (j, bi) :: rest, s =>
    match blockData fis pattern i j with
    | none => (s, some WExit.crash)
    | some block =>
      if ¬(io i j).seek_ok ∨ (io i j).write_ret ≠ (bi.size : Int) then
        (s, some (WExit.wfail bi.abs_offset bi.size))
      else
        let s' : WState := ⟨s.t + 1, s.trace ++ [(i, j, block)]⟩
        if canceled s'.t then (s', some WExit.aborted)
        else writeBlocksLoop fis pattern io canceled i rest s'

/-- Outer loop of `writeFull` over the files (lines 676–722). -/
def writeFilesLoop (fis : List FileInfo) (pattern : List Nat)
    (io : Nat → Nat → WStep) (canceled : Nat → Bool) :
    List (Nat × FileInfo) → WState → WState × WExit
  | [], s => (s, WExit.ok)
  | (i, fi) :: rest, s =>
    match writeBlocksLoop fis pattern io canceled i fi.blocks.enum s with
    | (s', none) => writeFilesLoop fis pattern io canceled rest s'
    | (s', some e) => (s', e)

/-- `VolumeTester::writeFull`: runs the loops from a fresh state and
accumulates `Error::Write` into the error classification on a failed
block (line 703). -/
def writeFull (fis : List FileInfo) (pattern : List Nat)
    (io : Nat → Nat → WStep) (canceled : Nat → Bool) (error_in : Nat) :
    WState × WExit × Nat :=
  let r := writeFilesLoop fis pattern io canceled fis.enum ⟨0, []⟩
  (r.1, r.2,
    match r.2 with
    | WExit.wfail _ _ => error_in ||| errWrite
    | _ => error_in)

/-- The two nested writer loops, flattened over index-annotated blocks;
used only to reason about `writeFull`. -/
def writeFlat (fis : List FileInfo) (pattern : List Nat)
    (io : Nat → Nat → WStep) (canceled : Nat → Bool) :
    List (Nat × Nat × BlockInfo) → WState → WState × Option WExit
  | [], s => (s, none)
  | (i, j, bi) :: rest, s =>
    match blockData fis pattern i j with
    | none => (s, some WExit.crash)
    | some block =>
      if ¬(io i j).seek_ok ∨ (io i j).write_ret ≠ (bi.size : Int) then
        (s, some (WExit.wfail bi.abs_offset bi.size))
      else
        let s' : WState := ⟨s.t + 1, s.trace ++ [(i, j, block)]⟩
        if canceled s'.t then (s', some WExit.aborted)
        else writeFlat fis pattern io canceled rest s'

/-! ### Verifier (`VolumeTester::verifyFull`, lines 727–780) -/

/-- Outcome of the seek/read pair for one block attempt: whether the
seek succeeded, and the bytes `file->read(block_info.size)` returned. -/
structure VStep where
  seek_ok : Bool
  read_ret : List Nat
deriving Repr, DecidableEq

/-- How the verifier loop ends. -/
inductive VExit where
  | ok
  | vfail (abs_offset : Nat) (size : Nat)
  | aborted
  | crash
deriving Repr, DecidableEq

/-- Verifier progress: checkpoint counter and the ordered trace of
`(file index, block index, expected data)` the verifier derived and
compared against. -/
structure VState where
  t : Nat
  trace : List (Nat × Nat × List Nat)
deriving Repr, DecidableEq

/-- Inner loop of `verifyFull` over the blocks of file `i`
(lines 748–776): derive the expected data the same way as the writer,
seek + read, compare, on mismatch set the flag and report
`(abs_offset, size)`, then poll the cancellation flag. -/
def verifyBlocksLoop (fis : List FileInfo) (pattern : List Nat)
    (vio : Nat → Nat → VStep) (canceled : Nat → Bool) (i : Nat) :
    List (Nat × BlockInfo) → VState → VState × Option VExit
  | [], s => (s, none)
  | (j, bi) :: rest, s =>
    match blockData fis pattern i j with
    | none => (s, some VExit.crash)
    | some block =>
      if ¬(vio i j).seek_ok ∨ (vio i j).read_ret ≠ block then
        (s, some (VExit.vfail bi.abs_offset bi.size))
      else
        let s' : VState := ⟨s.t + 1, s.trace ++ [(i, j, block)]⟩
        if canceled s'.t then (s', some VExit.aborted)
        else verifyBlocksLoop fis pattern vio canceled i rest s'

/-- Outer loop of `verifyFull` over the files (lines 737–777). -/
def verifyFilesLoop (fis : List FileInfo) (pattern : List Nat)
    (vio : Nat → Nat → VStep) (canceled : Nat → Bool) :
    List (Nat × FileInfo) → VState → VState × VExit
  | [], s => (s, VExit.ok)
  | (i, fi) :: rest, s =>
    match verifyBlocksLoop fis pattern vio canceled i fi.blocks.enum s with
    | (s', none) => verifyFilesLoop fis pattern vio canceled rest s'
    | (s', some e) => (s', e)

/-- `VolumeTester::verifyFull`: runs the loops from a fresh state and
accumulates `Error::Verify` on a failed block (line 763). -/
def verifyFull (fis : List FileInfo) (pattern : List Nat)
    (vio : Nat → Nat → VStep) (canceled : Nat → Bool) (error_in : Nat) :
    VState × VExit × Nat :=
  let r := verifyFilesLoop fis pattern vio canceled fis.enum ⟨0, []⟩
  (r.1, r.2,
    match r.2 with
    | VExit.vfail _ _ => error_in ||| errVerify
    | _ => error_in)

/-- Flattened verifier loop, for reasoning only. -/
def verifyFlat (fis : List FileInfo) (pattern : List Nat)
    (vio : Nat → Nat → VStep) (canceled : Nat → Bool) :
    List (Nat × Nat × BlockInfo) → VState → VState × Option VExit
  | [], s => (s, none)
  | (i, j, bi) :: rest, s =>
    match blockData fis pattern i j with
    | none => (s, some VExit.crash)
    | some block =>
      if ¬(vio i j).seek_ok ∨ (vio i j).read_ret ≠ block then
        (s, some (VExit.vfail bi.abs_offset bi.size))
      else
        let s' : VState := ⟨s.t + 1, s.trace ++ [(i, j, block)]⟩
        if canceled s'.t then (s', some VExit.aborted)
        else verifyFlat fis pattern vio canceled rest s'

/-- The block list of `allBlocks` restricted to one enumerated file. -/
def fileBlocks (p : Nat × FileInfo) : List (Nat × Nat × BlockInfo) :=
  p.2.blocks.enum.map (fun q => (p.1, q.1, q.2))

/-- Canonical trace entry for a block: the data the phase derives. -/
def traceEntry (pattern : List Nat) (e : Nat × Nat × BlockInfo) :
    Nat × Nat × List Nat :=
  (e.1, e.2.1, blockDataCore pattern e.2.2)

/-! ### Filesystem-root and file-content model -/

/-- The filesystem root: an association list from file name/path to
content bytes. -/
abbrev Disk := List (String × List Nat)

/-- Extend a content with zero bytes up to length `n` (seeking past the
end of a file and writing leaves a zero-filled gap; resizing larger
zero-fills). -/
def padTo (c : List Nat) (n : Nat) : List Nat :=
  c ++ List.replicate (n - c.length) 0

/-- Overwrite `d` into content `c` at offset `off`
(seek + successful write on an ideal device). -/
def writeAt (c : List Nat) (off : Nat) (d : List Nat) : List Nat :=
  (padTo c off).take off ++ d ++ (padTo c off).drop (off + d.length)

/-- Read `n` bytes at offset `off` (short at end of file). -/
def readAt (c : List Nat) (off n : Nat) : List Nat :=
  (c.drop off).take n

/-- `QFile::resize`: truncate, or grow zero-filled. -/
def resizeTo (c : List Nat) (n : Nat) : List Nat :=
  if n ≤ c.length then c.take n else padTo c n

/-- The sentinel trailer byte of `VolumeTester::initialize`
(line 541: `uchar byte_fe = 254`). -/
def byte_fe : Nat := 254

/-- The per-file body of the first pass of `VolumeTester::initialize`
(lines 545–627) on an ideal storage device, starting from existing
content `c0` (`QIODevice::ReadWrite` keeps existing content; a fresh
file is `[]`): write the file id at offset 0, grow to the planned size,
write the sentinel trailer byte at the last offset, then the quick test
immediately re-reads the trailer byte and the id and compares them.
Returns (content, quick test passed, error flags added). -/
def initFileStep (c0 : List Nat) (fi : FileInfo) : List Nat × Bool × Nat :=
  let c1 := writeAt c0 0 fi.id
  let c2 := resizeTo c1 fi.size
  let c3 := writeAt c2 (fi.size - 1) [byte_fe]
  if readAt c3 (fi.size - 1) 1 ≠ [byte_fe] then (c3, false, errVerify)
  else if readAt c3 0 fi.id.length ≠ fi.id then (c3, false, errVerify)
  else (c3, true, 0)

/-- `QFile::remove` with a best-effort outcome oracle; the source
discards the return value (line 809). -/
def removeFile (removeOk : String → Bool) (d : Disk) (p : String) : Disk :=
  if removeOk p then d.filter (fun en => en.1 ≠ p) else d

/-- Loop of `VolumeTester::deleteFiles` (lines 802–814), which iterates
`i` from `file_infos.size()-1` down to `0` — i.e. processes the reversed
plan list — removing each file (ignoring failures) and
`file_infos.removeAt(i)`. Accumulates the removal order. -/
def deleteFilesLoop (removeOk : String → Bool) :
    List FileInfo → Disk → List String → Disk × List String
  | [], d, order => (d, order)
  | fi :: rest, d, order =>
      deleteFilesLoop removeOk rest (removeFile removeOk d fi.path)
        (order ++ [fi.path])

/-- `VolumeTester::deleteFiles`: the plan list ends empty
(`assert(file_infos.isEmpty())`); returns the remaining plan list, the
resulting root, and the removal order. -/
def deleteFiles (infos : List FileInfo) (d : Disk)
    (removeOk : String → Bool) : List FileInfo × Disk × List String :=
  let r := deleteFilesLoop removeOk infos.reverse d []
  ([], r.1, r.2)

/-! ### Session events, start-up checks, conflicts, cancellation -/

/-- Signals `VolumeTester` emits that matter to the claims.
`evFailedDefault` is the argument-less `emit failed()` of the
invalid-mountpoint branch (line 368). -/
inductive Event where
  | evFailedDefault
  | evFailed (flags : Nat)
  | evSucceeded
  | evFinished
deriving Repr, DecidableEq

/-- Outcome of the checks at the head of `VolumeTester::start`. -/
structure StartOutcome where
  events : List Event
  plan : List FileInfo
  started : Bool
deriving Repr, DecidableEq

/-- Head of `VolumeTester::start` (lines 362–485): abort with
`failed()`/`finished()` if the mountpoint is no longer valid; abort with
`failed(Error::Full)`/`finished()` if the available byte count
(`qint64`) is `<= 0`; otherwise generate the pattern, compute the plan
and proceed to the phases (`started`). The source never consults the
root listing (`root_files`), although `rootFiles()`/`conflictFiles()`
are available: `start()` performs no conflict check. -/
def startPlan (valid : Bool) (bytes_avail : Int) (fsm bsm : Nat)
    (mount : String) (root_files : List String) : StartOutcome :=
  if !valid then
    { events := [Event.evFailedDefault, Event.evFinished]
      plan := []
      started := false }
  else if bytes_avail ≤ 0 then
    { events := [Event.evFailed errFull, Event.evFinished]
      plan := []
      started := false }
  else
    { events := []
      plan := planFiles fsm bsm bytes_avail.toNat mount
      started := true }

/-- Tail of `VolumeTester::start` (lines 503–517): emitted result events
from the phase outcomes. `deleteFiles` runs via the `files_parent`
destructor and cannot alter these events. -/
def finishEvents (ok : Bool) (error_type : Nat) : List Event :=
  if ok then [Event.evSucceeded, Event.evFinished]
  else [Event.evFailed error_type, Event.evFinished]

/-- Result events together with the cleanup outcome; cleanup failures
have no channel back into the events. -/
def runEnd (ok : Bool) (error_type : Nat) (infos : List FileInfo)
    (d : Disk) (removeOk : String → Bool) :
    List Event × (List FileInfo × Disk × List String) :=
  (finishEvents ok error_type, deleteFiles infos d removeOk)

/-- `VolumeTester::conflictFiles` (lines 337–352): every name in the
filesystem root that starts with the reserved prefix. -/
def conflictFiles (root_files : List String) : List String :=
  root_files.filter (fun name => strStartsWith name filePrefix)

/-- Cancellation-relevant session state: the accumulating error
classification and the cooperative `_canceled` flag. -/
structure Session where
  error_type : Nat
  canceled : Bool
deriving Repr, DecidableEq

/-- `VolumeTester::cancel` (lines 524–529):
`error_type |= Error::Aborted; _canceled = true`. -/
def cancelReq (s : Session) : Session :=
  { error_type := s.error_type ||| errAborted, canceled := true }

/-- Concrete file used to exhibit the trailer-byte value: size 5,
id `"0" '\1'`. -/
def wFileC4 : FileInfo :=
  { path := "CAPACITYTESTER0", offset := 0, size := 5, fend := 5,
    id := fileId 0, blocks := [] }

/-- Concrete cleanup inputs: two planned files and a root holding them
plus an unrelated file. -/
def wInfosC8 : List FileInfo :=
  [{ path := "CAPACITYTESTER0", offset := 0, size := 3, fend := 3,
     id := fileId 0, blocks := [] },
   { path := "CAPACITYTESTER1", offset := 3, size := 1, fend := 4,
     id := fileId 1, blocks := [] }]

/-- Root contents before cleanup in the C8 witness. -/
def wDiskC8 : Disk :=
  [("CAPACITYTESTER0", [1, 2, 3]), ("other.txt", [5]),
   ("CAPACITYTESTER1", [9])]

/-- Writer oracle for the C5 witness: the seek/write pair fails
(reports 0 bytes) exactly at file 0, block 1. -/
def wIoC5 : Nat → Nat → WStep := fun i j =>
  if i = 0 ∧ j = 1 then { seek_ok := true, write_ret := 0 }
  else { seek_ok := true,
         write_ret :=
           (((blockData (planFiles 3 2 4 "/x") [7, 9] i j).getD []).length
             : Int) }

/-- Cancellation trace for the C6 witness: the flag becomes visible at
checkpoint 2. -/
def wCancC6 : Nat → Bool := fun t => decide (2 ≤ t)

/-- Fault-free writer oracle for the C6 witness. -/
def wIoC6 : Nat → Nat → WStep := fun i j =>
  { seek_ok := true,
    write_ret :=
      (((blockData (planFiles 3 2 4 "/x") [7, 9] i j).getD []).length
        : Int) }

/-- Fault-free writer oracle for the C2 witness. -/
def wIoC2 : Nat → Nat → WStep := fun i j =>
  { seek_ok := true,
    write_ret :=
      (((blockData (planFiles 3 2 4 "/x") [7, 9] i j).getD []).length
        : Int) }

/-- Fault-free verifier oracle for the C2 witness: reads return exactly
what was stored. -/
def wVioC2 : Nat → Nat → VStep := fun i j =>
  { seek_ok := true,
    read_ret := (blockData (planFiles 3 2 4 "/x") [7, 9] i j).getD [] }

/-- Concrete plan for the C10 witness: a single 3-byte block whose
4-byte tag does not fit. -/
def wPlanC10 : List FileInfo :=
  [{ path := "CAPACITYTESTER0", offset := 0, size := 3, fend := 3,
     id := fileId 0,
     blocks := [{ rel_offset := 0, abs_offset := 0, size := 3,
                  abs_end := 3, id := blockId 0 0 }] }]

/-! ## Theorems -/

theorem sum_range_const (n c : Nat) :
    ((List.range n).map (fun _ => c)).sum = n * c := by
  induction n with
  | zero => simp
  | succ n ih =>
      rw [List.range_succ, List.map_append, List.sum_append]
      simp [ih, Nat.succ_mul]

theorem chunkSize_of_lt (total max i : Nat) (h : i + 1 < chunkCount total max) :
    chunkSize total max i = max := by
  unfold chunkSize
  rw [if_neg]
  rintro ⟨hi, -⟩
  omega

theorem sum_chunkSizes (total max : Nat) :
    ((List.range (chunkCount total max)).map (chunkSize total max)).sum
      = total := by
  by_cases hr : total % max = 0
  · have hcount : chunkCount total max = total / max := by
      simp [chunkCount, hr]
    have hsz : ∀ i ∈ List.range (chunkCount total max),
        chunkSize total max i = max := by
      intro i _
      simp [chunkSize, hr]
    rw [List.map_congr_left hsz, sum_range_const, hcount]
    exact Nat.div_mul_cancel (Nat.dvd_of_mod_eq_zero hr)
  · have hcount : chunkCount total max = total / max + 1 := by
      simp [chunkCount, hr]
    rw [hcount, List.range_succ, List.map_append, List.sum_append]
    have hsz : ∀ i ∈ List.range (total / max),
        chunkSize total max i = max := by
      intro i hi
      rw [List.mem_range] at hi
      exact chunkSize_of_lt total max i (by omega)
    rw [List.map_congr_left hsz, sum_range_const]
    have hlast : chunkSize total max (total / max) = total % max := by
      simp [chunkSize, hcount, hr]
    simp only [List.map_cons, List.map_nil, List.sum_cons, List.sum_nil,
      hlast]
    rw [Nat.mul_comm]
    have := Nat.div_add_mod total max
    omega

theorem chunkSize_le (total max i : Nat) (hmax : 0 < max) :
    chunkSize total max i ≤ max := by
  unfold chunkSize
  split
  · exact Nat.le_of_lt (Nat.mod_lt _ hmax)
  · exact Nat.le_refl _

theorem chunkSize_pos (total max i : Nat) (hmax : 0 < max) :
    i < chunkCount total max → 0 < chunkSize total max i := by
  intro hi
  unfold chunkSize
  split
  · rename_i h
    exact Nat.pos_of_ne_zero h.2
  · exact hmax

/-! ### Shape of the plan -/

theorem planBlocksOf_sizes (bsm off i size : Nat) :
    (planBlocksOf bsm off i size).map BlockInfo.size
      = (List.range (chunkCount size bsm)).map (chunkSize size bsm) := by
  simp only [planBlocksOf, List.map_map, chunkCount, chunkSize]
  rfl

theorem planFiles_sizes (fsm bsm B : Nat) (m : String) :
    (planFiles fsm bsm B m).map FileInfo.size
      = (List.range (chunkCount B fsm)).map (chunkSize B fsm) := by
  simp only [planFiles, List.map_map, chunkCount, chunkSize]
  rfl

theorem planFiles_length (fsm bsm B : Nat) (m : String) :
    (planFiles fsm bsm B m).length = chunkCount B fsm := by
  simp [planFiles, chunkCount]

theorem planBlocksOf_length (bsm off i size : Nat) :
    (planBlocksOf bsm off i size).length = chunkCount size bsm := by
  simp [planBlocksOf, chunkCount]

theorem planFiles_get (fsm bsm B : Nat) (m : String) (i : Nat)
    (h : i < (planFiles fsm bsm B m).length) :
    (planFiles fsm bsm B m).get ⟨i, h⟩
      = { path := m ++ "/" ++ filePrefix ++ Nat.repr i
          offset := i * fsm
          size := chunkSize B fsm i
          fend := i * fsm + chunkSize B fsm i
          id := fileId i
          blocks := planBlocksOf bsm (i * fsm) i (chunkSize B fsm i) } := by
  simp [planFiles, chunkCount, chunkSize]

theorem planBlocksOf_get (bsm off i size : Nat) (j : Nat)
    (h : j < (planBlocksOf bsm off i size).length) :
    (planBlocksOf bsm off i size).get ⟨j, h⟩
      = { rel_offset := j * bsm
          abs_offset := off + j * bsm
          size := chunkSize size bsm j
          abs_end := off + (j * bsm + chunkSize size bsm j)
          id := blockId i j } := by
  simp [planBlocksOf, chunkCount, chunkSize]

theorem planFiles_mem (fsm bsm B : Nat) (m : String) (f : FileInfo)
    (hf : f ∈ planFiles fsm bsm B m) :
    ∃ i, i < chunkCount B fsm ∧ f.size = chunkSize B fsm i ∧
      f.offset = i * fsm ∧
      f.blocks = planBlocksOf bsm (i * fsm) i (chunkSize B fsm i) := by
  rw [List.mem_iff_get] at hf
  obtain ⟨⟨i, hi⟩, hget⟩ := hf
  refine ⟨i, ?_, ?_, ?_, ?_⟩
  · have := planFiles_length fsm bsm B m
    omega
  · rw [← hget, planFiles_get]
  · rw [← hget, planFiles_get]
  · rw [← hget, planFiles_get]

theorem planFiles_blocks_sum (fsm bsm B : Nat) (m : String)
    (f : FileInfo) (hf : f ∈ planFiles fsm bsm B m) :
    (f.blocks.map BlockInfo.size).sum = f.size := by
  obtain ⟨i, -, hsize, -, hblocks⟩ := planFiles_mem fsm bsm B m f hf
  rw [hblocks, planBlocksOf_sizes, sum_chunkSizes, hsize]

/-- C1: for `bytes_available > 0` and `0 < block_size_max < file_size_max`,
both whole-megabyte multiples, the plan computed by `start()` satisfies:
file sizes sum exactly to `bytes_available`; every file except possibly
the last has size `file_size_max`; within every file the block sizes sum
exactly to the file's size and every block except possibly the last has
size `block_size_max`; every file's offset is `index * file_size_max` and
every block's file-relative offset is `index * block_size_max`; offsets
are strictly increasing, and consecutive files are contiguous. -/
theorem planner_partition (fsm bsm B : Nat) (m : String)
    (hB : 0 < B) (hbs : 0 < bsm) (hlt : bsm < fsm)
    (hbm : MB ∣ bsm) (hfm : MB ∣ fsm) :
    (((planFiles fsm bsm B m).map FileInfo.size).sum = B)
    ∧ (∀ i, i + 1 < (planFiles fsm bsm B m).length →
        ∀ h : i < (planFiles fsm bsm B m).length,
        ((planFiles fsm bsm B m).get ⟨i, h⟩).size = fsm)
    ∧ (∀ f ∈ planFiles fsm bsm B m,
        (f.blocks.map BlockInfo.size).sum = f.size)
    ∧ (∀ f ∈ planFiles fsm bsm B m, ∀ j, j + 1 < f.blocks.length →
        ∀ h : j < f.blocks.length, (f.blocks.get ⟨j, h⟩).size = bsm)
    ∧ (∀ i, ∀ h : i < (planFiles fsm bsm B m).length,
        ((planFiles fsm bsm B m).get ⟨i, h⟩).offset = i * fsm)
    ∧ (∀ f ∈ planFiles fsm bsm B m, ∀ j, ∀ h : j < f.blocks.length,
        (f.blocks.get ⟨j, h⟩).rel_offset = j * bsm)
    ∧ (∀ i i', ∀ hi : i < (planFiles fsm bsm B m).length,
        ∀ hi' : i' < (planFiles fsm bsm B m).length, i < i' →
        ((planFiles fsm bsm B m).get ⟨i, hi⟩).offset
          < ((planFiles fsm bsm B m).get ⟨i', hi'⟩).offset)
    ∧ (∀ i, ∀ h : i < (planFiles fsm bsm B m).length,
        ∀ h' : i + 1 < (planFiles fsm bsm B m).length,
        ((planFiles fsm bsm B m).get ⟨i + 1, h'⟩).offset
          = ((planFiles fsm bsm B m).get ⟨i, h⟩).offset
            + ((planFiles fsm bsm B m).get ⟨i, h⟩).size) := by
  have hfs : 0 < fsm := Nat.lt_trans hbs hlt
  refine ⟨?_, ?_, ?_, ?_, ?_, ?_, ?_, ?_⟩
  · rw [planFiles_sizes, sum_chunkSizes]
  · intro i hi1 h
    rw [planFiles_get]
    exact chunkSize_of_lt B fsm i (by
      have := planFiles_length fsm bsm B m; omega)
  · exact planFiles_blocks_sum fsm bsm B m
  · intro f hf j hj1 h
    obtain ⟨i, -, hsize, -, hblocks⟩ := planFiles_mem fsm bsm B m f hf
    have hlen : f.blocks.length = chunkCount (chunkSize B fsm i) bsm := by
      rw [hblocks, planBlocksOf_length]
    rw [List.get_of_eq hblocks ⟨j, h⟩, planBlocksOf_get]
    exact chunkSize_of_lt (chunkSize B fsm i) bsm j (by omega)
  · intro i h
    rw [planFiles_get]
  · intro f hf j h
    obtain ⟨i, -, hsize, -, hblocks⟩ := planFiles_mem fsm bsm B m f hf
    rw [List.get_of_eq hblocks ⟨j, h⟩, planBlocksOf_get]
  · intro i i' hi hi' hlt'
    rw [planFiles_get, planFiles_get]
    exact (Nat.mul_lt_mul_right hfs).mpr hlt'
  · intro i h h'
    rw [planFiles_get, planFiles_get]
    simp only []
    have hsz : chunkSize B fsm i = fsm := by
      refine chunkSize_of_lt B fsm i ?_
      have := planFiles_length fsm bsm B m; omega
    rw [hsz, Nat.succ_mul]

/-- Witness for C1 at concrete parameters (file size 2 MB, block size
1 MB, 3 MB + 5 bytes available). -/
theorem planner_partition_witness :
    ((planFiles (2 * MB) MB (3 * MB + 5) "/x").map FileInfo.size).sum
      = 3 * MB + 5 :=
  (planner_partition (2 * MB) MB (3 * MB + 5) "/x" (by decide) (by decide)
    (by decide) (by decide) ⟨2, rfl⟩).1

/-! ### Writer/verifier loop lemmas -/

theorem writeFlat_append (fis : List FileInfo) (pattern : List Nat)
    (io : Nat → Nat → WStep) (canceled : Nat → Bool)
    (a b : List (Nat × Nat × BlockInfo)) (s : WState) :
    writeFlat fis pattern io canceled (a ++ b) s
      = match writeFlat fis pattern io canceled a s with
        | (s', none) => writeFlat fis pattern io canceled b s'
        | (s', some e) => (s', some e) := by
  induction a generalizing s with
  | nil => simp [writeFlat]
  | cons e rest ih =>
      obtain ⟨i, j, bi⟩ := e
      simp only [List.cons_append, writeFlat]
      cases hbd : blockData fis pattern i j with
      | none => simp
      | some block =>
          simp only []
          split
          · simp
          · split
            · simp
            · exact ih _

theorem writeBlocksLoop_eq_flat (fis : List FileInfo) (pattern : List Nat)
    (io : Nat → Nat → WStep) (canceled : Nat → Bool) (i : Nat)
    (l : List (Nat × BlockInfo)) (s : WState) :
    writeBlocksLoop fis pattern io canceled i l s
      = writeFlat fis pattern io canceled
          (l.map (fun q => (i, q.1, q.2))) s := by
  induction l generalizing s with
  | nil => simp [writeBlocksLoop, writeFlat]
  | cons e rest ih =>
      obtain ⟨j, bi⟩ := e
      simp only [List.map_cons, writeBlocksLoop, writeFlat]
      cases hbd : blockData fis pattern i j with
      | none => simp
      | some block =>
          simp only []
          split
          · rfl
          · split
            · rfl
            · exact ih _

theorem writeFilesLoop_eq_flat (fis : List FileInfo) (pattern : List Nat)
    (io : Nat → Nat → WStep) (canceled : Nat → Bool)
    (l : List (Nat × FileInfo)) (s : WState) :
    writeFilesLoop fis pattern io canceled l s
      = (match writeFlat fis pattern io canceled (l.flatMap fileBlocks) s with
         | (s', none) => (s', WExit.ok)
         | (s', some e) => (s', e)) := by
  induction l generalizing s with
  | nil => simp [writeFilesLoop, writeFlat]
  | cons p rest ih =>
      obtain ⟨i, fi⟩ := p
      rw [writeFilesLoop, writeBlocksLoop_eq_flat, List.flatMap_cons,
        writeFlat_append]
      have hfb : fileBlocks (i, fi)
          = fi.blocks.enum.map (fun q => (i, q.1, q.2)) := rfl
      rw [hfb]
      cases hres : writeFlat fis pattern io canceled
          (fi.blocks.enum.map (fun q => (i, q.1, q.2))) s with
      | mk s' oe =>
          cases oe with
          | none => exact ih s'
          | some e => rfl

theorem allBlocks_eq_flatMap (fis : List FileInfo) :
    allBlocks fis = fis.enum.flatMap fileBlocks := rfl

theorem writeFull_eq_flat (fis : List FileInfo) (pattern : List Nat)
    (io : Nat → Nat → WStep) (canceled : Nat → Bool) (e0 : Nat) :
    writeFull fis pattern io canceled e0
      = (match writeFlat fis pattern io canceled (allBlocks fis) ⟨0, []⟩ with
         | (s', none) => (s', WExit.ok, e0)
         | (s', some (WExit.wfail o n)) =>
             (s', WExit.wfail o n, e0 ||| errWrite)
         | (s', some e) => (s', e, e0)) := by
  unfold writeFull
  rw [writeFilesLoop_eq_flat, ← allBlocks_eq_flatMap]
  cases writeFlat fis pattern io canceled (allBlocks fis) ⟨0, []⟩ with
  | mk s' oe =>
      cases oe with
      | none => rfl
      | some e => cases e <;> rfl

theorem allBlocks_lookup (fis : List FileInfo) (e : Nat × Nat × BlockInfo)
    (he : e ∈ allBlocks fis) :
    ∃ fi, fis.get? e.1 = some fi ∧ fi.blocks.get? e.2.1 = some e.2.2 := by
  unfold allBlocks at he
  rw [List.mem_flatMap] at he
  obtain ⟨⟨i, fi⟩, hp, hq⟩ := he
  rw [List.mem_map] at hq
  obtain ⟨⟨j, bi⟩, hjb, hqe⟩ := hq
  refine ⟨fi, ?_, ?_⟩
  · rw [List.mk_mem_enum_iff_getElem?] at hp
    rw [← hqe]
    simpa [List.get?_eq_getElem?] using hp
  · rw [List.mk_mem_enum_iff_getElem?] at hjb
    rw [← hqe]
    simpa [List.get?_eq_getElem?] using hjb

theorem allBlocks_blockData (fis : List FileInfo) (pattern : List Nat)
    (e : Nat × Nat × BlockInfo) (he : e ∈ allBlocks fis) :
    blockData fis pattern e.1 e.2.1
      = some (blockDataCore pattern e.2.2) := by
  obtain ⟨fi, h1, h2⟩ := allBlocks_lookup fis e he
  rw [List.get?_eq_getElem?] at h1 h2
  simp [blockData, h1, h2]

theorem writeFlat_all_ok (fis : List FileInfo) (pattern : List Nat)
    (io : Nat → Nat → WStep) (canceled : Nat → Bool)
    (l : List (Nat × Nat × BlockInfo)) (s : WState)
    (hlook : ∀ e ∈ l, blockData fis pattern e.1 e.2.1
      = some (blockDataCore pattern e.2.2))
    (hio : ∀ e ∈ l, (io e.1 e.2.1).seek_ok = true
      ∧ (io e.1 e.2.1).write_ret = (e.2.2.size : Int))
    (hc : ∀ t, canceled t = false) :
    writeFlat fis pattern io canceled l s
      = (⟨s.t + l.length, s.trace ++ l.map (traceEntry pattern)⟩, none) := by
  induction l generalizing s with
  | nil => simp [writeFlat]
  | cons e rest ih =>
      obtain ⟨i, j, bi⟩ := e
      have hl := hlook _ (List.mem_cons_self _ _)
      have hioe := hio _ (List.mem_cons_self _ _)
      simp only at hl hioe
      rw [writeFlat, hl]
      simp only []
      rw [if_neg (by simp [hioe.1, hioe.2]), if_neg (by simp [hc])]
      rw [ih _ (fun x hx => hlook x (List.mem_cons_of_mem _ hx))
        (fun x hx => hio x (List.mem_cons_of_mem _ hx))]
      simp [traceEntry, WState.mk.injEq]
      omega

theorem writeFlat_first_fail (fis : List FileInfo) (pattern : List Nat)
    (io : Nat → Nat → WStep) (canceled : Nat → Bool)
    (l : List (Nat × Nat × BlockInfo)) (s : WState) (k : Nat)
    (hk : k < l.length)
    (hlook : ∀ e ∈ l, blockData fis pattern e.1 e.2.1
      = some (blockDataCore pattern e.2.2))
    (hok : ∀ m (hm : m < k),
      ((io (l.get ⟨m, by omega⟩).1 (l.get ⟨m, by omega⟩).2.1).seek_ok = true
        ∧ (io (l.get ⟨m, by omega⟩).1 (l.get ⟨m, by omega⟩).2.1).write_ret
            = ((l.get ⟨m, by omega⟩).2.2.size : Int)))
    (hfail : ¬((io (l.get ⟨k, hk⟩).1 (l.get ⟨k, hk⟩).2.1).seek_ok = true
        ∧ (io (l.get ⟨k, hk⟩).1 (l.get ⟨k, hk⟩).2.1).write_ret
            = ((l.get ⟨k, hk⟩).2.2.size : Int)))
    (hc : ∀ t, canceled t = false) :
    writeFlat fis pattern io canceled l s
      = (⟨s.t + k, s.trace ++ (l.take k).map (traceEntry pattern)⟩,
         some (WExit.wfail (l.get ⟨k, hk⟩).2.2.abs_offset
           (l.get ⟨k, hk⟩).2.2.size)) := by
  induction l generalizing s k with
  | nil => exact absurd hk (by simp)
  | cons e rest ih =>
      obtain ⟨i, j, bi⟩ := e
      have hl := hlook _ (List.mem_cons_self _ _)
      simp only at hl
      cases k with
      | zero =>
          rw [writeFlat, hl]
          simp only []
          rw [if_pos]
          · simp
          · simp only [List.get] at hfail
            by_cases hs : (io i j).seek_ok = true
            · right
              intro hr
              exact hfail ⟨hs, by simpa using hr⟩
            · left
              simpa using hs
      | succ k' =>
          have hioe := hok 0 (Nat.succ_pos k')
          simp only [List.get] at hioe
          rw [writeFlat, hl]
          simp only []
          rw [if_neg (by simp [hioe.1, hioe.2]), if_neg (by simp [hc])]
          rw [ih _ k' (by simpa using Nat.lt_of_succ_lt_succ hk)
            (fun x hx => hlook x (List.mem_cons_of_mem _ hx))
            (fun m hm => hok (m + 1) (Nat.succ_lt_succ hm))
            (by simpa using hfail)]
          simp [traceEntry, WState.mk.injEq]
          omega

theorem writeFlat_cancel (fis : List FileInfo) (pattern : List Nat)
    (io : Nat → Nat → WStep) (canceled : Nat → Bool)
    (l : List (Nat × Nat × BlockInfo)) (s : WState) (t0 : Nat)
    (hlook : ∀ e ∈ l, blockData fis pattern e.1 e.2.1
      = some (blockDataCore pattern e.2.2))
    (hio : ∀ e ∈ l, (io e.1 e.2.1).seek_ok = true
      ∧ (io e.1 e.2.1).write_ret = (e.2.2.size : Int))
    (hmin : ∀ u, u < t0 → canceled u = false)
    (ht0 : canceled t0 = true)
    (hlo : s.t < t0) (hhi : t0 ≤ s.t + l.length) :
    writeFlat fis pattern io canceled l s
      = (⟨t0, s.trace ++ (l.take (t0 - s.t)).map (traceEntry pattern)⟩,
         some WExit.aborted) := by
  induction l generalizing s with
  | nil => simp at hhi; omega
  | cons e rest ih =>
      obtain ⟨i, j, bi⟩ := e
      have hl := hlook _ (List.mem_cons_self _ _)
      have hioe := hio _ (List.mem_cons_self _ _)
      simp only at hl hioe
      rw [writeFlat, hl]
      simp only []
      rw [if_neg (by simp [hioe.1, hioe.2])]
      by_cases hstop : s.t + 1 = t0
      · rw [if_pos (by rw [hstop]; exact ht0)]
        have ht1 : t0 - s.t = 1 := by omega
        simp [ht1, traceEntry, hstop]
      · rw [if_neg (by rw [hmin _ (by omega)]; simp)]
        rw [ih _ (fun x hx => hlook x (List.mem_cons_of_mem _ hx))
          (fun x hx => hio x (List.mem_cons_of_mem _ hx))
          (by simp; omega)
          (by simp at hhi ⊢; omega)]
        have htake : t0 - s.t = (t0 - (s.t + 1)) + 1 := by omega
        simp [htake, traceEntry, WState.mk.injEq, List.append_assoc]

theorem verifyFlat_append (fis : List FileInfo) (pattern : List Nat)
    (vio : Nat → Nat → VStep) (canceled : Nat → Bool)
    (a b : List (Nat × Nat × BlockInfo)) (s : VState) :
    verifyFlat fis pattern vio canceled (a ++ b) s
      = match verifyFlat fis pattern vio canceled a s with
        | (s', none) => verifyFlat fis pattern vio canceled b s'
        | (s', some e) => (s', some e) := by
  induction a generalizing s with
  | nil => simp [verifyFlat]
  | cons e rest ih =>
      obtain ⟨i, j, bi⟩ := e
      simp only [List.cons_append, verifyFlat]
      cases hbd : blockData fis pattern i j with
      | none => simp
      | some block =>
          simp only []
          split
          · simp
          · split
            · simp
            · exact ih _

theorem verifyBlocksLoop_eq_flat (fis : List FileInfo) (pattern : List Nat)
    (vio : Nat → Nat → VStep) (canceled : Nat → Bool) (i : Nat)
    (l : List (Nat × BlockInfo)) (s : VState) :
    verifyBlocksLoop fis pattern vio canceled i l s
      = verifyFlat fis pattern vio canceled
          (l.map (fun q => (i, q.1, q.2))) s := by
  induction l generalizing s with
  | nil => simp [verifyBlocksLoop, verifyFlat]
  | cons e rest ih =>
      obtain ⟨j, bi⟩ := e
      simp only [List.map_cons, verifyBlocksLoop, verifyFlat]
      cases hbd : blockData fis pattern i j with
      | none => simp
      | some block =>
          simp only []
          split
          · rfl
          · split
            · rfl
            · exact ih _

theorem verifyFilesLoop_eq_flat (fis : List FileInfo) (pattern : List Nat)
    (vio : Nat → Nat → VStep) (canceled : Nat → Bool)
    (l : List (Nat × FileInfo)) (s : VState) :
    verifyFilesLoop fis pattern vio canceled l s
      = (match verifyFlat fis pattern vio canceled (l.flatMap fileBlocks) s with
         | (s', none) => (s', VExit.ok)
         | (s', some e) => (s', e)) := by
  induction l generalizing s with
  | nil => simp [verifyFilesLoop, verifyFlat]
  | cons p rest ih =>
      obtain ⟨i, fi⟩ := p
      rw [verifyFilesLoop, verifyBlocksLoop_eq_flat, List.flatMap_cons,
        verifyFlat_append]
      have hfb : fileBlocks (i, fi)
          = fi.blocks.enum.map (fun q => (i, q.1, q.2)) := rfl
      rw [hfb]
      cases hres : verifyFlat fis pattern vio canceled
          (fi.blocks.enum.map (fun q => (i, q.1, q.2))) s with
      | mk s' oe =>
          cases oe with
          | none => exact ih s'
          | some e => rfl

theorem verifyFull_eq_flat (fis : List FileInfo) (pattern : List Nat)
    (vio : Nat → Nat → VStep) (canceled : Nat → Bool) (e0 : Nat) :
    verifyFull fis pattern vio canceled e0
      = (match verifyFlat fis pattern vio canceled (allBlocks fis) ⟨0, []⟩ with
         | (s', none) => (s', VExit.ok, e0)
         | (s', some (VExit.vfail o n)) =>
             (s', VExit.vfail o n, e0 ||| errVerify)
         | (s', some e) => (s', e, e0)) := by
  unfold verifyFull
  rw [verifyFilesLoop_eq_flat, ← allBlocks_eq_flatMap]
  cases verifyFlat fis pattern vio canceled (allBlocks fis) ⟨0, []⟩ with
  | mk s' oe =>
      cases oe with
      | none => rfl
      | some e => cases e <;> rfl

theorem verifyFlat_all_ok (fis : List FileInfo) (pattern : List Nat)
    (vio : Nat → Nat → VStep) (canceled : Nat → Bool)
    (l : List (Nat × Nat × BlockInfo)) (s : VState)
    (hlook : ∀ e ∈ l, blockData fis pattern e.1 e.2.1
      = some (blockDataCore pattern e.2.2))
    (hio : ∀ e ∈ l, (vio e.1 e.2.1).seek_ok = true
      ∧ (vio e.1 e.2.1).read_ret = blockDataCore pattern e.2.2)
    (hc : ∀ t, canceled t = false) :
    verifyFlat fis pattern vio canceled l s
      = (⟨s.t + l.length, s.trace ++ l.map (traceEntry pattern)⟩, none) := by
  induction l generalizing s with
  | nil => simp [verifyFlat]
  | cons e rest ih =>
      obtain ⟨i, j, bi⟩ := e
      have hl := hlook _ (List.mem_cons_self _ _)
      have hioe := hio _ (List.mem_cons_self _ _)
      simp only at hl hioe
      rw [verifyFlat, hl]
      simp only []
      rw [if_neg (by simp [hioe.1, hioe.2]), if_neg (by simp [hc])]
      rw [ih _ (fun x hx => hlook x (List.mem_cons_of_mem _ hx))
        (fun x hx => hio x (List.mem_cons_of_mem _ hx))]
      simp [traceEntry, VState.mk.injEq]
      omega

/-! ### Block data properties -/

theorem blockDataCore_length (pattern : List Nat) (bi : BlockInfo)
    (hlen : bi.size ≤ pattern.length) :
    (blockDataCore pattern bi).length = bi.size := by
  by_cases hgt : pattern.length > bi.size <;>
    by_cases hid : bi.size ≥ bi.id.length <;>
      simp [blockDataCore, hgt, hid] <;> omega

theorem allBlocks_size_le (fsm bsm B : Nat) (m : String) (hbs : 0 < bsm)
    (e : Nat × Nat × BlockInfo)
    (he : e ∈ allBlocks (planFiles fsm bsm B m)) :
    e.2.2.size ≤ bsm := by
  obtain ⟨fi, h1, h2⟩ := allBlocks_lookup _ e he
  rw [List.get?_eq_some] at h1
  obtain ⟨hi, hget⟩ := h1
  rw [planFiles_get] at hget
  rw [List.get?_eq_some] at h2
  obtain ⟨hj, hgetb⟩ := h2
  have hblocks : fi.blocks
      = planBlocksOf bsm (e.1 * fsm) e.1 (chunkSize B fsm e.1) := by
    rw [← hget]
  rw [List.get_of_eq hblocks ⟨e.2.1, hj⟩, planBlocksOf_get] at hgetb
  rw [← hgetb]
  exact chunkSize_le _ _ _ hbs

/-- C2: block-data derivation is deterministic and round-trips: under a
plan from `start()` and a pattern of length `block_size_max`, with
fault-free I/O and no cancellation, the trace of data the Writer writes
equals the trace of expected data the Verifier independently derives —
both are `blockData` applied to the same (file index, block index) —
and for every planned block `blockData` yields bytes of exactly the
block's planned size. -/
theorem writer_verifier_roundtrip (fsm bsm B e0 : Nat) (m : String)
    (pattern : List Nat) (io : Nat → Nat → WStep) (vio : Nat → Nat → VStep)
    (canceled : Nat → Bool)
    (hpat : pattern.length = bsm) (hbs : 0 < bsm)
    (hio : ∀ e ∈ allBlocks (planFiles fsm bsm B m),
      (io e.1 e.2.1).seek_ok = true
        ∧ (io e.1 e.2.1).write_ret = (e.2.2.size : Int))
    (hvio : ∀ e ∈ allBlocks (planFiles fsm bsm B m),
      (vio e.1 e.2.1).seek_ok = true
        ∧ (vio e.1 e.2.1).read_ret = blockDataCore pattern e.2.2)
    (hc : ∀ t, canceled t = false) :
    ((writeFull (planFiles fsm bsm B m) pattern io canceled e0).1.trace
      = (allBlocks (planFiles fsm bsm B m)).map (traceEntry pattern))
    ∧ ((verifyFull (planFiles fsm bsm B m) pattern vio canceled e0).1.trace
      = (allBlocks (planFiles fsm bsm B m)).map (traceEntry pattern))
    ∧ (∀ e ∈ allBlocks (planFiles fsm bsm B m),
        blockData (planFiles fsm bsm B m) pattern e.1 e.2.1
          = some (blockDataCore pattern e.2.2)
        ∧ (blockDataCore pattern e.2.2).length = e.2.2.size) := by
  refine ⟨?_, ?_, ?_⟩
  · rw [writeFull_eq_flat,
      writeFlat_all_ok _ _ _ _ _ _ (allBlocks_blockData _ pattern) hio hc]
    simp
  · rw [verifyFull_eq_flat,
      verifyFlat_all_ok _ _ _ _ _ _ (allBlocks_blockData _ pattern) hvio hc]
    simp
  · intro e he
    refine ⟨allBlocks_blockData _ pattern e he, ?_⟩
    refine blockDataCore_length pattern e.2.2 ?_
    rw [hpat]
    exact allBlocks_size_le fsm bsm B m hbs e he

/-- C3: the generated pattern has length exactly `block_size_max` and
every byte lies strictly between 0 and 255 (`rand() % 254 + 1`), for any
stream of `rand()` results; the pattern value is immutable once
generated (it is only read afterwards). -/
theorem pattern_length_and_range (bsm : Nat) (rand : Nat → Nat) :
    (generateTestPattern bsm rand).length = bsm
    ∧ ∀ b ∈ generateTestPattern bsm rand, 0 < b ∧ b < 255 := by
  constructor
  · simp [generateTestPattern]
  · intro b hb
    simp only [generateTestPattern, List.mem_map, List.mem_range] at hb
    obtain ⟨i, -, rfl⟩ := hb
    omega

/-- C10: the identifying tag is embedded at the start of a block's data
only when the block is at least as large as the tag; a block smaller
than its tag gets the bare truncated pattern, with no partial tag. -/
theorem blockData_tag_embedding (fis : List FileInfo) (pattern : List Nat)
    (i j : Nat) (fi : FileInfo) (bi : BlockInfo)
    (hfi : fis.get? i = some fi) (hbi : fi.blocks.get? j = some bi)
    (hlen : bi.size ≤ pattern.length) :
    (bi.size < bi.id.length →
      blockData fis pattern i j = some (pattern.take bi.size))
    ∧ (bi.id.length ≤ bi.size →
      blockData fis pattern i j
        = some (bi.id ++ (pattern.take bi.size).drop bi.id.length)) := by
  rw [List.get?_eq_getElem?] at hfi hbi
  have hcore : blockData fis pattern i j = some (blockDataCore pattern bi) := by
    simp [blockData, hfi, hbi]
  rw [hcore]
  have hblock : (if pattern.length > bi.size then pattern.take bi.size
      else pattern) = pattern.take bi.size := by
    by_cases hgt : pattern.length > bi.size
    · rw [if_pos hgt]
    · rw [if_neg hgt]
      have hpl : pattern.length = bi.size := by omega
      rw [← hpl, List.take_length]
  constructor
  · intro hsm
    simp only [blockDataCore, hblock]
    rw [if_neg (by omega)]
  · intro hfit
    simp only [blockDataCore, hblock]
    rw [if_pos (by omega)]

/-! ### Content-manipulation lemmas -/

theorem padTo_eq_self (c : List Nat) (n : Nat) (h : n ≤ c.length) :
    padTo c n = c := by
  unfold padTo
  rw [Nat.sub_eq_zero_of_le h]
  simp

theorem writeAt_zero (c d : List Nat) :
    writeAt c 0 d = d ++ c.drop d.length := by
  unfold writeAt
  rw [padTo_eq_self c 0 (Nat.zero_le _)]
  simp

theorem resizeTo_length (c : List Nat) (n : Nat) :
    (resizeTo c n).length = n := by
  unfold resizeTo
  split
  · simp
    omega
  · simp [padTo]
    omega

theorem resizeTo_take (c : List Nat) (n k : Nat) (hkn : k ≤ n)
    (hkc : k ≤ c.length) :
    (resizeTo c n).take k = c.take k := by
  unfold resizeTo
  split
  · rw [List.take_take]
    congr 1
    omega
  · exact List.take_append_of_le_length hkc

theorem writeAt_last (c : List Nat) (n : Nat) (b : Nat)
    (hlen : c.length = n) (hpos : 0 < n) :
    writeAt c (n - 1) [b] = c.take (n - 1) ++ [b] := by
  unfold writeAt
  rw [padTo_eq_self c (n - 1) (by omega)]
  have hdrop : c.drop (n - 1 + 1) = [] := by
    apply List.drop_eq_nil_of_le
    omega
  simp [hdrop]

/-! ### Initializer: trailer byte and quick test -/

theorem initFileStep_content (c0 : List Nat) (fi : FileInfo)
    (hpos : 0 < fi.size) (hid : fi.id.length < fi.size) :
    readAt (initFileStep c0 fi).1 (fi.size - 1) 1 = [byte_fe]
    ∧ readAt (initFileStep c0 fi).1 0 fi.id.length = fi.id
    ∧ (initFileStep c0 fi).2.1 = true := by
  have h1 : writeAt c0 0 fi.id = fi.id ++ c0.drop fi.id.length :=
    writeAt_zero c0 fi.id
  have h1len : (writeAt c0 0 fi.id).length ≥ fi.id.length := by
    rw [h1]; simp
  have h2len : (resizeTo (writeAt c0 0 fi.id) fi.size).length = fi.size :=
    resizeTo_length _ _
  have h2take : (resizeTo (writeAt c0 0 fi.id) fi.size).take fi.id.length
      = fi.id := by
    rw [resizeTo_take _ _ _ (by omega) (by omega), h1,
      List.take_append_of_le_length (by simp), List.take_length]
  have h3 : writeAt (resizeTo (writeAt c0 0 fi.id) fi.size) (fi.size - 1)
      [byte_fe]
      = (resizeTo (writeAt c0 0 fi.id) fi.size).take (fi.size - 1)
        ++ [byte_fe] :=
    writeAt_last _ _ _ h2len hpos
  have htkl : ((resizeTo (writeAt c0 0 fi.id) fi.size).take
      (fi.size - 1)).length = fi.size - 1 := by
    simp [h2len]
  have hrd1 : readAt (writeAt (resizeTo (writeAt c0 0 fi.id) fi.size)
      (fi.size - 1) [byte_fe]) (fi.size - 1) 1 = [byte_fe] := by
    rw [h3]
    unfold readAt
    rw [List.drop_left' htkl]
    rfl
  have hrd2 : readAt (writeAt (resizeTo (writeAt c0 0 fi.id) fi.size)
      (fi.size - 1) [byte_fe]) 0 fi.id.length = fi.id := by
    rw [h3]
    unfold readAt
    rw [List.drop_zero,
      List.take_append_of_le_length (by rw [htkl]; omega),
      List.take_take, min_eq_left (by omega), h2take]
  refine ⟨?_, ?_, ?_⟩
  · simp only [initFileStep, hrd1, hrd2]
    simp
    exact hrd1
  · simp only [initFileStep, hrd1, hrd2]
    simp
    exact hrd2
  · simp only [initFileStep, hrd1, hrd2]
    simp

/-- C4 counterexample: the Initializer's sentinel trailer byte is not
255 — after initializing a file, the re-read trailer byte is 254
(`uchar byte_fe = 254` in the source), not 255 as claimed. -/
theorem trailer_byte_not_255 :
    readAt (initFileStep [] wFileC4).1 (wFileC4.size - 1) 1 = [254]
    ∧ readAt (initFileStep [] wFileC4).1 (wFileC4.size - 1) 1 ≠ [255] := by
  constructor
  · decide
  · decide

/-- C4 amended: during initialization of each file, after growing the
file to its planned size, the Initializer seeks to the last byte and
writes the sentinel trailer byte `byte_fe = 254` (not 255), and the
quick test immediately re-reads that trailer byte and compares it
against the same sentinel value 254 (and the leading id), succeeding on
an ideal device. -/
theorem initializer_trailer_sentinel (c0 : List Nat) (fi : FileInfo)
    (hpos : 0 < fi.size) (hid : fi.id.length < fi.size) :
    readAt (initFileStep c0 fi).1 (fi.size - 1) 1 = [byte_fe]
    ∧ (initFileStep c0 fi).2.1 = true
    ∧ byte_fe = 254 := by
  obtain ⟨ha, -, hc⟩ := initFileStep_content c0 fi hpos hid
  exact ⟨ha, hc, rfl⟩

/-- Witness for C4 (amended) at the concrete file `wFileC4`. -/
theorem initializer_trailer_sentinel_witness :
    readAt (initFileStep [] wFileC4).1 (wFileC4.size - 1) 1 = [byte_fe]
    ∧ (initFileStep [] wFileC4).2.1 = true
    ∧ byte_fe = 254 :=
  initializer_trailer_sentinel [] wFileC4 (by decide) (by decide)

/-! ### Cleanup lemmas -/

theorem deleteFilesLoop_order (removeOk : String → Bool)
    (l : List FileInfo) (d : Disk) (order : List String) :
    (deleteFilesLoop removeOk l d order).2
      = order ++ l.map FileInfo.path := by
  induction l generalizing d order with
  | nil => simp [deleteFilesLoop]
  | cons fi rest ih =>
      simp only [deleteFilesLoop]
      rw [ih]
      simp

theorem deleteFilesLoop_mem (removeOk : String → Bool)
    (hro : ∀ p, removeOk p = true)
    (l : List FileInfo) (d : Disk) (order : List String)
    (en : String × List Nat) :
    en ∈ (deleteFilesLoop removeOk l d order).1
      ↔ en ∈ d ∧ en.1 ∉ l.map FileInfo.path := by
  induction l generalizing d order with
  | nil => simp [deleteFilesLoop]
  | cons fi rest ih =>
      simp only [deleteFilesLoop]
      rw [ih]
      unfold removeFile
      rw [hro fi.path, if_pos rfl]
      simp only [List.mem_filter, List.map_cons, List.mem_cons]
      constructor
      · rintro ⟨⟨hd, hne⟩, hnot⟩
        refine ⟨hd, ?_⟩
        rintro (h | h)
        · exact absurd h (by simpa using hne)
        · exact hnot h
      · rintro ⟨hd, hnot⟩
        refine ⟨⟨hd, ?_⟩, fun h => hnot (Or.inr h)⟩
        simpa using fun h => hnot (Or.inl h)

/-- C8: on every run outcome, cleanup empties the plan's file list,
removes the created files in reverse creation order, ignores removal
failures without changing the emitted result events, and — when
removals succeed and every reserved-prefix entry of the root was a
planned file — leaves zero reserved-prefix files in the root. -/
theorem cleanup_removes_all (infos : List FileInfo) (d : Disk)
    (removeOk : String → Bool) (ok : Bool) (e0 : Nat) :
    ((deleteFiles infos d removeOk).1 = [])
    ∧ ((deleteFiles infos d removeOk).2.2 = (infos.map FileInfo.path).reverse)
    ∧ (∀ removeOk', (runEnd ok e0 infos d removeOk).1
        = (runEnd ok e0 infos d removeOk').1)
    ∧ ((∀ p, removeOk p = true) →
        (∀ en ∈ d, strStartsWith en.1 filePrefix = true
          → en.1 ∈ infos.map FileInfo.path) →
        ∀ en ∈ (deleteFiles infos d removeOk).2.1,
          strStartsWith en.1 filePrefix = false) := by
  refine ⟨rfl, ?_, fun removeOk' => rfl, ?_⟩
  · unfold deleteFiles
    rw [deleteFilesLoop_order]
    simp
  · intro hro hpre en hen
    unfold deleteFiles at hen
    rw [deleteFilesLoop_mem removeOk hro] at hen
    obtain ⟨hd, hnot⟩ := hen
    by_contra hb
    rw [Bool.not_eq_false] at hb
    exact hnot (by simpa using hpre en hd hb)

/-- Witness for C8 at concrete inputs. -/
theorem cleanup_removes_all_witness :
    ∀ en ∈ (deleteFiles wInfosC8 wDiskC8 (fun _ => true)).2.1,
      strStartsWith en.1 filePrefix = false :=
  (cleanup_removes_all wInfosC8 wDiskC8 (fun _ => true) true 0).2.2.2
    (fun p => rfl) (by decide)

/-! ### Plan-time failures and conflicts -/

/-- C7: if the mountpoint is no longer valid, `start()` fails
immediately (failed, then finished) with no plan entries and no files;
if the available byte count is `≤ 0`, `start()` fails immediately with
the `Full` classification (failed(Full), then finished), again with no
plan entries and no files created. -/
theorem start_fails_fast (b : Int) (fsm bsm : Nat) (m : String)
    (rf : List String) :
    (b ≤ 0 →
      startPlan true b fsm bsm m rf
        = { events := [Event.evFailed errFull, Event.evFinished]
            plan := []
            started := false })
    ∧ startPlan false b fsm bsm m rf
        = { events := [Event.evFailedDefault, Event.evFinished]
            plan := []
            started := false } := by
  constructor
  · intro hb
    simp [startPlan, hb]
  · simp [startPlan]

/-- Witness for C7: zero available bytes. -/
theorem start_fails_fast_witness :
    startPlan true 0 (2 * MB) MB "/x" []
      = { events := [Event.evFailed errFull, Event.evFinished]
          plan := []
          started := false } :=
  (start_fails_fast 0 (2 * MB) MB "/x" []).1 (by decide)

/-- C9 counterexample: with a leftover conflict file present in the
root, the conflict list is non-empty, yet `start()` still begins the
test — `start()` performs no conflict check. -/
theorem start_ignores_conflicts :
    conflictFiles ["CAPACITYTESTER0"] ≠ []
    ∧ (startPlan true 100 (2 * MB) MB "/x" ["CAPACITYTESTER0"]).started
        = true := by
  constructor
  · decide
  · rfl

/-- C9 amended: every pre-existing root entry whose name begins with
the reserved prefix is reported in the conflict list (and only those);
`start()` itself, however, does not consult the conflict list — its
behaviour is independent of the root listing — so refusing to run with
a non-empty conflict list is the caller's responsibility. -/
theorem conflict_list_reports_prefix_files (l : List String) (n : String) :
    (n ∈ conflictFiles l ↔ n ∈ l ∧ strStartsWith n filePrefix = true)
    ∧ (∀ v b fsm bsm m rf rf',
        startPlan v b fsm bsm m rf = startPlan v b fsm bsm m rf') := by
  constructor
  · simp [conflictFiles, List.mem_filter]
  · intro v b fsm bsm m rf rf'
    rfl

/-! ### Bitmask helpers -/

theorem or_and_self_ne_zero (a b : Nat) (hb : b ≠ 0) :
    (a ||| b) &&& b ≠ 0 := by
  have heq : (a ||| b) &&& b = b := by
    apply Nat.eq_of_testBit_eq
    intro i
    simp only [Nat.testBit_or, Nat.testBit_and]
    cases b.testBit i <;> simp
  rw [heq]
  exact hb

theorem or_or_and_ne_zero (a c b : Nat) (hb : b ≠ 0) :
    ((a ||| b) ||| c) &&& b ≠ 0 := by
  have heq : ((a ||| b) ||| c) &&& b = b := by
    apply Nat.eq_of_testBit_eq
    intro i
    simp only [Nat.testBit_or, Nat.testBit_and]
    cases b.testBit i <;> simp
  rw [heq]
  exact hb

/-! ### Writer failure and cancellation -/

/-- C5: if the first failing block attempt (short write or failed seek)
is attempt `k` in plan order, the Writer sets the Write error flag,
reports exactly that block's absolute offset and size, and aborts the
phase at once: its trace holds exactly the blocks strictly before `k`,
each written once (no retry, nothing after `k`). -/
theorem writer_aborts_on_short_write (fis : List FileInfo)
    (pattern : List Nat) (io : Nat → Nat → WStep) (canceled : Nat → Bool)
    (e0 k : Nat) (hk : k < (allBlocks fis).length)
    (hok : ∀ m (hm : m < k),
      ((io ((allBlocks fis).get ⟨m, Nat.lt_trans hm hk⟩).1
          ((allBlocks fis).get ⟨m, Nat.lt_trans hm hk⟩).2.1).seek_ok = true
        ∧ (io ((allBlocks fis).get ⟨m, Nat.lt_trans hm hk⟩).1
            ((allBlocks fis).get ⟨m, Nat.lt_trans hm hk⟩).2.1).write_ret
          = (((allBlocks fis).get ⟨m, Nat.lt_trans hm hk⟩).2.2.size : Int)))
    (hfail : ¬((io ((allBlocks fis).get ⟨k, hk⟩).1
          ((allBlocks fis).get ⟨k, hk⟩).2.1).seek_ok = true
        ∧ (io ((allBlocks fis).get ⟨k, hk⟩).1
            ((allBlocks fis).get ⟨k, hk⟩).2.1).write_ret
          = (((allBlocks fis).get ⟨k, hk⟩).2.2.size : Int)))
    (hc : ∀ t, canceled t = false) :
    writeFull fis pattern io canceled e0
      = (⟨k, ((allBlocks fis).take k).map (traceEntry pattern)⟩,
         WExit.wfail ((allBlocks fis).get ⟨k, hk⟩).2.2.abs_offset
           ((allBlocks fis).get ⟨k, hk⟩).2.2.size,
         e0 ||| errWrite)
    ∧ (e0 ||| errWrite) &&& errWrite ≠ 0 := by
  constructor
  · rw [writeFull_eq_flat,
      writeFlat_first_fail fis pattern io canceled (allBlocks fis)
        ⟨0, []⟩ k hk (allBlocks_blockData fis pattern) hok hfail hc]
    simp
  · exact or_and_self_ne_zero e0 errWrite (by decide)

/-- Witness for C5: a 4-byte volume split into files of 3 and 1 bytes
and blocks of at most 2 bytes; the short write is injected at the
second block attempt. -/
theorem writer_aborts_on_short_write_witness :
    writeFull (planFiles 3 2 4 "/x") [7, 9] wIoC5 (fun _ => false) 0
      = (⟨1, ((allBlocks (planFiles 3 2 4 "/x")).take 1).map
             (traceEntry [7, 9])⟩,
         WExit.wfail 2 1, 0 ||| errWrite) :=
  (writer_aborts_on_short_write (planFiles 3 2 4 "/x") [7, 9] wIoC5
    (fun _ => false) 0 1 (by decide)
    (by
      intro m hm
      have hm0 : m = 0 := by omega
      subst hm0
      exact ⟨rfl, rfl⟩)
    (by decide)
    (fun t => rfl)).1

/-- C6: requesting cancellation sets the `Aborted` flag (and it
survives any later flag accumulation) and raises the cooperative flag;
a Writer that observes the flag at checkpoint `t0` (the flag polled
after every block) stops with exactly the first `t0` blocks written and
none after; the session then ends in a failed result carrying that
error classification; and cleanup removes every created file. -/
theorem cancellation_aborts_and_cleans (fis : List FileInfo)
    (pattern : List Nat) (io : Nat → Nat → WStep) (canceled : Nat → Bool)
    (e0 t0 : Nat) (s : Session) (d : Disk) (removeOk : String → Bool)
    (hio : ∀ e ∈ allBlocks fis, (io e.1 e.2.1).seek_ok = true
      ∧ (io e.1 e.2.1).write_ret = (e.2.2.size : Int))
    (hmin : ∀ u, u < t0 → canceled u = false)
    (ht0 : canceled t0 = true)
    (h1 : 1 ≤ t0) (h2 : t0 ≤ (allBlocks fis).length)
    (hro : ∀ p, removeOk p = true) :
    ((cancelReq s).canceled = true
      ∧ ∀ extra, ((cancelReq s).error_type ||| extra) &&& errAborted ≠ 0)
    ∧ writeFull fis pattern io canceled e0
        = (⟨t0, ((allBlocks fis).take t0).map (traceEntry pattern)⟩,
           WExit.aborted, e0)
    ∧ finishEvents false ((cancelReq s).error_type)
        = [Event.evFailed ((cancelReq s).error_type), Event.evFinished]
    ∧ (∀ fi ∈ fis, ∀ en ∈ (deleteFiles fis d removeOk).2.1,
        en.1 ≠ fi.path) := by
  refine ⟨⟨rfl, ?_⟩, ?_, rfl, ?_⟩
  · intro extra
    exact or_or_and_ne_zero s.error_type extra errAborted (by decide)
  · rw [writeFull_eq_flat,
      writeFlat_cancel fis pattern io canceled (allBlocks fis) ⟨0, []⟩ t0
        (allBlocks_blockData fis pattern) hio hmin ht0
        (by simpa using h1) (by simpa using h2)]
    simp
  · intro fi hfi en hen
    unfold deleteFiles at hen
    rw [deleteFilesLoop_mem removeOk hro] at hen
    intro heq
    apply hen.2
    rw [heq, List.map_reverse, List.mem_reverse]
    exact List.mem_map_of_mem _ hfi

/-- Witness for C6: the writer stops after the second of three blocks
once cancellation is observed. -/
theorem cancellation_aborts_and_cleans_witness :
    writeFull (planFiles 3 2 4 "/x") [7, 9] wIoC6 wCancC6 0
      = (⟨2, ((allBlocks (planFiles 3 2 4 "/x")).take 2).map
             (traceEntry [7, 9])⟩,
         WExit.aborted, 0) :=
  (cancellation_aborts_and_cleans (planFiles 3 2 4 "/x") [7, 9] wIoC6
    wCancC6 0 2 ⟨0, false⟩ [] (fun _ => true)
    (by decide) (by decide) (by decide) (by decide) (by decide)
    (fun p => rfl)).2.1

/-- Witness for C2 at a 4-byte volume (files ≤ 3 bytes, blocks ≤ 2,
pattern `[7, 9]`). -/
theorem writer_verifier_roundtrip_witness :
    (writeFull (planFiles 3 2 4 "/x") [7, 9] wIoC2 (fun _ => false) 0).1.trace
      = (allBlocks (planFiles 3 2 4 "/x")).map (traceEntry [7, 9]) :=
  (writer_verifier_roundtrip 3 2 4 0 "/x" [7, 9] wIoC2 wVioC2
    (fun _ => false) rfl (by decide) (by decide) (by decide)
    (fun t => rfl)).1

/-- Witness for C10: the 3-byte block gets the bare truncated pattern,
no part of its 4-byte tag. -/
theorem blockData_tag_embedding_witness :
    blockData wPlanC10 [7, 8, 9, 10] 0 0 = some [7, 8, 9] :=
  (blockData_tag_embedding wPlanC10 [7, 8, 9, 10] 0 0
    { path := "CAPACITYTESTER0", offset := 0, size := 3, fend := 3,
      id := fileId 0,
      blocks := [{ rel_offset := 0, abs_offset := 0, size := 3,
                   abs_end := 3, id := blockId 0 0 }] }
    { rel_offset := 0, abs_offset := 0, size := 3, abs_end := 3,
      id := blockId 0 0 }
    rfl rfl (by decide)).1 (by decide)
